import Mathlib

/-!
Shallow embedding of the FlowViz core (FlowMD parser, GraphModel,
HighlightEngine) from `app/assets/js/parser.js`, the graph-model source and
`app/assets/js/highlight.js`, together with theorems settling the frozen
claims about the natural-language specification.

JavaScript strings are modelled as Lean `String`/`List Char`; JS `Map` and
`Set` are modelled as insertion-ordered association lists and duplicate-free
insertion-ordered lists; thrown `FlowMDError`s are modelled with `Except`.
The three regular expressions of the parser are embedded as dedicated
matching functions that reproduce the backtracking behaviour of the JS
regex engine on the given patterns.
-/

namespace FlowViz

/-! ## Character and string helpers (JS semantics) -/

/-- JS `\s` on the ASCII range (space, tab, CR, LF, vertical tab, form feed). -/
def jsWS (c : Char) : Bool :=
  c = ' ' || c = '\t' || c = '\r' || c = '\n' || c = '\x0b' || c = '\x0c'

/-- The character class `[A-Za-z0-9_\-]` shared by the id parts of
`EDGE_PATTERN` and `NODE_PATTERN`. -/
def idChar (c : Char) : Bool :=
  (('A' ≤ c ∧ c ≤ 'Z') : Bool) || (('a' ≤ c ∧ c ≤ 'z') : Bool) ||
  (('0' ≤ c ∧ c ≤ '9') : Bool) || c = '_' || c = '-'

/-- Drop leading JS whitespace. -/
def dropWS (cs : List Char) : List Char := cs.dropWhile jsWS

/-- JS `String.prototype.trim` (ASCII whitespace). -/
def jsTrim (s : String) : String :=
  ⟨((s.data.dropWhile jsWS).reverse.dropWhile jsWS).reverse⟩

/-- Lower-case a character sequence, modelling the `i` regex flag. -/
def jsLower (cs : List Char) : List Char := cs.map Char.toLower

/-- Holds when the first list is a prefix of the second (used for literal
alternatives inside the regex matchers). -/
def pfx : List Char → List Char → Bool
  | [], _ => true
  | _ :: _, [] => false
  | a :: as, b :: bs => a = b && pfx as bs

/-- JS `s.slice(1, -1)`: the text strictly between the first and last
character. -/
def sliceInner (s : String) : String := ⟨(s.data.drop 1).dropLast⟩

/-! ## JS `Set` (insertion-ordered, duplicate-free list) and `Map`
(insertion-ordered association list) -/

/-- Models `Set.add`: append iff not already present. -/
def setAdd (s : List String) (x : String) : List String :=
  if s.contains x then s else s ++ [x]

/-- Models `Map.has`. -/
def mapHas {α : Type} (m : List (String × α)) (k : String) : Bool :=
  m.any (fun p => p.1 == k)

/-- Models `Map.get` (first binding). -/
def mapGet? {α : Type} : List (String × α) → String → Option α
  | [], _ => none
  | (k', v) :: r, k => if k' = k then some v else mapGet? r k

/-- Models `Map.set`: replace the value in place if the key is present, else
append a new binding (JS `Map.set` keeps the original insertion position). -/
def mapSet {α : Type} : List (String × α) → String → α → List (String × α)
  | [], k, v => [(k, v)]
  | (k', v') :: r, k, v =>
    if k' = k then (k, v) :: r else (k', v') :: mapSet r k v

/-- Update the value at `k` in place when present, else leave the map
unchanged (models `map.get(k)` followed by a mutation, and `?.` access). -/
def mapUpdate {α : Type} (f : α → α) : List (String × α) → String → List (String × α)
  | [], _ => []
  | (k', v) :: r, k =>
    if k' = k then (k', f v) :: r else (k', v) :: mapUpdate f r k

/-- First index of `x` in a list, JS `Array.prototype.indexOf` (as an
`Option` instead of `-1`). -/
def idxOf? (x : String) : List String → Option Nat
  | [] => none
  | y :: r => if y = x then some 0 else (idxOf? x r).map Nat.succ

/-! ## Data model (records produced by the parser) -/

/-- A parser warning `{message, line}` or a model cycle warning
`{message, nodes}`; the absent field of each kind is `none`/`[]`. -/
structure Warning where
  message : String
  line : Option Nat := none
  nodes : List String := []
  deriving Repr, DecidableEq

/-- A `ctx.logs` entry (only orientation logs are ever pushed). -/
structure LogEntry where
  type : String
  value : String
  line : Nat
  deriving Repr, DecidableEq

/-- A node record as created by `FlowMDParser.#ensureNode`. -/
structure NodeRecord where
  id : String
  label : String
  shape : String
  line : Nat
  group : Option String
  deriving Repr, DecidableEq

/-- An edge record as pushed by `FlowMDParser.#parseEdge`. -/
structure EdgeRecord where
  id : String
  source : String
  target : String
  label : String
  line : Nat
  deriving Repr, DecidableEq

/-- The `meta` object assembled at the end of `FlowMDParser.parse`. -/
structure Meta where
  orientation : String
  preferredMaxNodes : Nat
  maxNodes : Nat
  warnings : List Warning
  logs : List LogEntry
  groups : List (String × List String)
  degrade : Bool
  overflow : Bool
  deriving Repr, DecidableEq

/-- The document `{nodes, edges, meta}` returned by a successful parse. -/
structure GraphDocument where
  nodes : List NodeRecord
  edges : List EdgeRecord
  meta : Meta
  deriving Repr, DecidableEq

/-- Models `FlowMDError`: the original message together with the optional line
number (`this.line`); the displayed message appends " (line N)" when a
line is present. -/
structure FlowMDError where
  message : String
  line : Option Nat
  deriving Repr, DecidableEq

/-- Constructor options of `FlowMDParser` (defaults 1000 / 300). -/
structure Options where
  maxNodes : Nat := 1000
  preferredMaxNodes : Nat := 300
  deriving Repr, DecidableEq

/-- Models `new FlowMDParser({})`. -/
def defaultOptions : Options := {}

/-- The mutable parse context `ctx` of `FlowMDParser.parse`. -/
structure Ctx where
  orientation : String := "TB"
  orientationParsed : Bool := false
  nodes : List NodeRecord := []
  edges : List EdgeRecord := []
  groups : List (String × List String) := []
  logs : List LogEntry := []
  warnings : List Warning := []
  errors : List Warning := []
  currentGroup : Option String := none
  line : Nat := 0
  deriving Repr, DecidableEq

/-- The initial `ctx` of `FlowMDParser.parse`. -/
def initCtx : Ctx := {}

/-! ## The three regex matchers -/

/-- The five direction alternatives `(TB|TD|BT|RL|LR)` of
`ORIENTATION_PATTERN`, tried in order as prefixes of the (lowered) text
after the keyword; `none` of them matching means the optional group is
omitted. -/
def dirOf? (r : List Char) : Option String :=
  if pfx ['t', 'b'] r then some "TB"
  else if pfx ['t', 'd'] r then some "TD"
  else if pfx ['b', 't'] r then some "BT"
  else if pfx ['r', 'l'] r then some "RL"
  else if pfx ['l', 'r'] r then some "LR"
  else none

/-- Models `ORIENTATION_PATTERN = /^(graph|flowchart)\s+(TB|TD|BT|RL|LR)?/i`
applied by `#parseHeader`: `some o` is the resulting orientation
(`(match[2] || 'TB').toUpperCase()`), `none` means the regex does not
match.  The pattern requires at least one whitespace character after the
keyword (`\s+`), and the direction group is optional. -/
def matchOrientation (line : String) : Option String :=
  let t := jsLower line.data
  let after? : Option (List Char) :=
    if pfx "graph".data t then some (t.drop 5)
    else if pfx "flowchart".data t then some (t.drop 9)
    else none
  match after? with
  | none => none
  | some rest =>
    match rest with
    | [] => none
    | c :: _ =>
      if jsWS c then some ((dirOf? (dropWS rest)).getD "TB")
      else none

/-- The six edge-operator alternatives of `EDGE_PATTERN`, in their
alternation order. -/
def edgeOps : List (List Char) :=
  ["-->".data, "--".data, "==>".data, "==".data, "-.->".data, "===>".data]

/-- Continuation of `EDGE_PATTERN` after the operator:
`\s*(?<label>\|[^|]+\|)?\s*(?<rhs>[A-Za-z0-9_\-]+)(?<decor>.*)$`.
Tries the optional label first (greedy), falling back to no label when the
remainder fails, exactly as the regex engine backtracks. Returns
`(label group including pipes, rhs, decor)`. -/
def edgeCont (afterOp : List Char) : Option (Option (List Char) × List Char × List Char) :=
  let r4 := dropWS afterOp
  let withLabel : Option (Option (List Char) × List Char × List Char) :=
    match r4 with
    | '|' :: r =>
      let inner := r.takeWhile (fun c => c ≠ '|')
      if inner.isEmpty then none
      else
        match r.drop inner.length with
        | '|' :: r5 =>
          let r6 := dropWS r5
          let rhs := r6.takeWhile idChar
          if rhs.isEmpty then none
          else some (some ('|' :: (inner ++ ['|'])), rhs, r6.drop rhs.length)
        | _ => none
    | _ => none
  match withLabel with
  | some res => some res
  | none =>
    let rhs := r4.takeWhile idChar
    if rhs.isEmpty then none
    else some (none, rhs, r4.drop rhs.length)

/-- Try the operator alternatives in order at the current position,
backtracking to the next alternative when the continuation fails. Returns
`(op, label?, rhs, decor)`. -/
def tryOps : List (List Char) → List Char → Option (List Char × Option (List Char) × List Char × List Char)
  | [], _ => none
  | op :: ops, rest2 =>
    if pfx op rest2 then
      match edgeCont (rest2.drop op.length) with
      | some (lbl, rhs, decor) => some (op, lbl, rhs, decor)
      | none => tryOps ops rest2
    else tryOps ops rest2

/-- Backtracking over the greedy `lhs` group of `EDGE_PATTERN`: try the
longest id-character prefix first, then shorter ones, as the regex engine
does. `k` is the candidate `lhs` length. -/
def goLhs (cs : List Char) : Nat → Option (String × String × Option String × String × String)
  | 0 => none
  | k + 1 =>
    match tryOps edgeOps (dropWS (cs.drop (k + 1))) with
    | some (op, lbl, rhs, decor) =>
      some (⟨cs.take (k + 1)⟩, ⟨op⟩, lbl.map (fun l => (⟨l⟩ : String)), ⟨rhs⟩, ⟨decor⟩)
    | none => goLhs cs k

/-- Models `EDGE_PATTERN` as used by `#parseEdge`: on a match returns the groups
`(lhs, edge, label?, rhs, decor)` (label including its `|` delimiters). -/
def matchEdge (line : String) : Option (String × String × Option String × String × String) :=
  let cs := line.data
  goLhs cs (cs.takeWhile idChar).length

/-- One shape alternative of `NODE_PATTERN`: after the opener, a greedy
run of non-closer characters followed by exactly the closer and then the
end of the line (`$`). Returns the inner text. -/
def shapeBody (close : Char) (r : List Char) : Option (List Char) :=
  let inner := r.takeWhile (fun c => c ≠ close)
  match r.drop inner.length with
  | [c] => if c = close then some inner else none
  | _ => none

/-- Models `NODE_PATTERN = /^(?<id>[A-Za-z0-9_\-]+)(?<shape>\[[^\]]*\]|\([^)]*\)|\{[^}]*\}|>[^<]*<)?$/`
as used by `#parseNode`: returns `(id, shape group including delimiters)`.
No backtracking over `id` is needed because no shape opener is an id
character. -/
def matchNode (line : String) : Option (String × Option String) :=
  let cs := line.data
  let idc := cs.takeWhile idChar
  if idc.isEmpty then none
  else
    let rest := cs.drop idc.length
    match rest with
    | [] => some (⟨idc⟩, none)
    | '[' :: r => (shapeBody ']' r).map (fun i => (⟨idc⟩, some ⟨'[' :: (i ++ [']'])⟩))
    | '(' :: r => (shapeBody ')' r).map (fun i => (⟨idc⟩, some ⟨'(' :: (i ++ [')'])⟩))
    | '\x7b' :: r => (shapeBody '\x7d' r).map (fun i => (⟨idc⟩, some ⟨'\x7b' :: (i ++ ['\x7d'])⟩))
    | '>' :: r => (shapeBody '<' r).map (fun i => (⟨idc⟩, some ⟨'>' :: (i ++ ['<'])⟩))
    | _ => none

/-- Models `/^subgraph\s+/i.test(line)`. -/
def testSubgraph (line : String) : Bool :=
  let t := jsLower line.data
  pfx "subgraph".data t &&
    (match t.drop 8 with
     | c :: _ => jsWS c
     | [] => false)

/-- Models `/^end$/i.test(line)`. -/
def testEnd (line : String) : Bool := jsLower line.data = "end".data

/-! ## The parser -/

/-- Models `FlowMDParser.#parseHeader`: match the orientation pattern or fail with
the structural error carrying `ctx.line`; on success record the
orientation, mark it parsed, and push the orientation log entry. -/
def parseHeader (line : String) (ctx : Ctx) : Except FlowMDError Ctx :=
  match matchOrientation line with
  | none => .error ⟨"FlowMD must start with graph/flowchart declaration", some ctx.line⟩
  | some o =>
    .ok { ctx with
          orientationParsed := true
          orientation := o
          logs := ctx.logs ++ [⟨"orientation", o, ctx.line⟩] }

/-- The second element of `line.split(/\s+/, 2)` for a trimmed line (which
starts with a non-whitespace character): the run after the first
whitespace run, up to the next whitespace. `none` models `undefined`
(no whitespace at all in the line). -/
def secondToken? (line : String) : Option String :=
  let cs := line.data
  let rest := cs.drop (cs.takeWhile (fun c => !jsWS c)).length
  match rest with
  | [] => none
  | _ :: _ => some ⟨(dropWS rest).takeWhile (fun c => !jsWS c)⟩

/-- Models `FlowMDParser.#parseSubgraph`: returns the new `ctx.currentGroup`
value (the group name, or `null` on a missing/empty name) and the updated
context (group registered in `ctx.groups`, or a warning pushed). -/
def parseSubgraph (line : String) (ctx : Ctx) : Option String × Ctx :=
  match secondToken? line with
  | none =>
    (none, { ctx with warnings := ctx.warnings ++ [⟨"Empty subgraph name", some ctx.line, []⟩] })
  | some nameRaw =>
    if jsTrim nameRaw = "" then
      (none, { ctx with warnings := ctx.warnings ++ [⟨"Empty subgraph name", some ctx.line, []⟩] })
    else if mapHas ctx.groups (jsTrim nameRaw) then (some (jsTrim nameRaw), ctx)
    else (some (jsTrim nameRaw), { ctx with groups := ctx.groups ++ [(jsTrim nameRaw, [])] })

/-- First node record with the given id (`ctx.nodes.get(id)` under the
unique-key discipline of the map). -/
def nodesGet? : List NodeRecord → String → Option NodeRecord
  | [], _ => none
  | n :: r, id => if n.id = id then some n else nodesGet? r id

/-- Models `ctx.nodes.has(id)`. -/
def nodesHas (ns : List NodeRecord) (id : String) : Bool :=
  ns.any (fun n => n.id == id)

/-- Update the first record with the given id in place. -/
def nodesUpdate (f : NodeRecord → NodeRecord) : List NodeRecord → String → List NodeRecord
  | [], _ => []
  | n :: r, id => if n.id = id then f n :: r else n :: nodesUpdate f r id

/-- Models `FlowMDParser.#ensureNode`: on first sight create the record (label =
trimmed decorator inner text, falling back to the id when empty; shape =
first character of the decorator, default `"[]"`; group = active group);
on a later sight with a decorator of length > 2, overwrite the label with
the trimmed inner text unless that is empty. -/
def ensureNode (id : String) (ctx : Ctx) (ln : Nat) (shape? : Option String) : Ctx :=
  if nodesHas ctx.nodes id then
    match shape? with
    | some sh =>
      if sh.length > 2 then
        { ctx with
          nodes := nodesUpdate
            (fun n =>
              { n with label := let t := jsTrim (sliceInner sh); if t = "" then n.label else t })
            ctx.nodes id }
      else ctx
    | none => ctx
  else
    let label0 := match shape? with
      | some sh => jsTrim (sliceInner sh)
      | none => id
    { ctx with
      nodes := ctx.nodes ++
        [{ id := id
           label := if label0 = "" then id else label0
           shape := match shape? with
             | some sh => (⟨sh.data.take 1⟩ : String)
             | none => "[]"
           line := ln
           group := ctx.currentGroup }] }

/-- Models `FlowMDParser.#parseEdge`: on an `EDGE_PATTERN` match, register both
endpoints and append the edge record; `none` when the pattern does not
match. -/
def parseEdge (line : String) (ctx : Ctx) : Option Ctx :=
  (matchEdge line).map fun m =>
    let lhs := m.1
    let label? := m.2.2.1
    let rhs := m.2.2.2.1
    let edgeLabel := match label? with
      | some l => jsTrim (sliceInner l)
      | none => ""
    let ctx1 := ensureNode lhs ctx ctx.line none
    let ctx2 := ensureNode rhs ctx1 ctx.line none
    { ctx2 with
      edges := ctx2.edges ++ [⟨lhs ++ "->" ++ rhs, lhs, rhs, edgeLabel, ctx.line⟩] }

/-- Models `FlowMDParser.#parseNode`: on a `NODE_PATTERN` match, register the
node and, when a group scope is active, add the id to that group's member
set (`ctx.groups.get(g)?.add(node.id)` — a no-op when the group is not in
the map); `none` when the pattern does not match. -/
def parseNode (line : String) (ctx : Ctx) : Option Ctx :=
  (matchNode line).map fun m =>
    let id := m.1
    let shape? := m.2
    let ctx1 := ensureNode id ctx ctx.line shape?
    match ctx1.currentGroup with
    | some g => { ctx1 with groups := mapUpdate (fun s => setAdd s id) ctx1.groups g }
    | none => ctx1

/-- The dispatch of one scan-loop iteration on the already-trimmed line
(with `ctx.line` already set): skip blank and `%%` lines, then header /
subgraph / end / edge / node, or push the "Unrecognised statement"
warning. -/
def processLineCore (line : String) (ctx : Ctx) : Except FlowMDError Ctx :=
  if line = "" || pfx "%%".data line.data then .ok ctx
  else if !ctx.orientationParsed then parseHeader line ctx
  else if testSubgraph line then
    .ok { (parseSubgraph line ctx).2 with currentGroup := (parseSubgraph line ctx).1 }
  else if testEnd line then .ok { ctx with currentGroup := none }
  else
    match parseEdge line ctx with
    | some ctx' => .ok ctx'
    | none =>
      match parseNode line ctx with
      | some ctx' => .ok ctx'
      | none =>
        .ok { ctx with warnings := ctx.warnings ++ [⟨"Unrecognised statement", some ctx.line, []⟩] }

/-- One iteration of the scan loop of `FlowMDParser.parse` for the raw
line at (1-based) line number `n`: set `ctx.line`, trim, and dispatch. -/
def processLine (rawLine : String) (n : Nat) (ctx : Ctx) : Except FlowMDError Ctx :=
  processLineCore (jsTrim rawLine) { ctx with line := n }

/-- The scan loop over all lines, starting at line number `n`; a thrown
`FlowMDError` aborts the loop. -/
def scanLines : List String → Nat → Ctx → Except FlowMDError Ctx
  | [], _, ctx => .ok ctx
  | l :: rest, n, ctx =>
    match processLine l n ctx with
    | .error e => .error e
    | .ok ctx' => scanLines rest (n + 1) ctx'

/-- Split a character sequence at `'\n'` (the pieces keep any `'\r'`). -/
def splitNL : List Char → List (List Char)
  | [] => [[]]
  | c :: r =>
    if c = '\n' then [] :: splitNL r
    else
      match splitNL r with
      | l :: ls => (c :: l) :: ls
      | [] => [[c]]

/-- Models `text.split(/\r?\n/)`: splitting at `'\n'` alone is observably
equivalent because every raw line is trimmed (which strips a trailing
`'\r'`) before any use. -/
def splitRNL (text : String) : List String :=
  (splitNL text.data).map (fun l => (⟨l⟩ : String))

/-- The line split followed by the scan loop of `FlowMDParser.parse`. -/
def parseCtx (text : String) : Except FlowMDError Ctx :=
  scanLines (splitRNL text) 1 initCtx

/-- The overflow error message
``Node count ${N} exceeds hard limit ${maxNodes}``. -/
def overflowMsg (n cap : Nat) : String :=
  "Node count " ++ toString n ++ " exceeds hard limit " ++ toString cap

/-- Models `FlowMDParser.parse` on a string argument: scan all lines, assemble
`meta` (with the `degrade`/`overflow` flags computed from the final node
count), throw the overflow error when `overflow` is set, and otherwise
return the document. -/
def parse (opts : Options) (text : String) : Except FlowMDError GraphDocument :=
  match parseCtx text with
  | .error e => .error e
  | .ok ctx =>
    let nodeArray := ctx.nodes
    let meta : Meta :=
      { orientation := ctx.orientation
        preferredMaxNodes := opts.preferredMaxNodes
        maxNodes := opts.maxNodes
        warnings := ctx.warnings
        logs := ctx.logs
        groups := ctx.groups
        degrade := decide (nodeArray.length > opts.preferredMaxNodes)
        overflow := decide (nodeArray.length > opts.maxNodes) }
    if meta.overflow then .error ⟨overflowMsg nodeArray.length opts.maxNodes, none⟩
    else .ok ⟨nodeArray, ctx.edges, meta⟩

/-- A JavaScript argument value as far as `typeof v !== 'string'` can
distinguish it. -/
inductive JSValue where
  | str (s : String)
  | num (n : Int)
  | null
  | undef
  | obj
  deriving Repr, DecidableEq

/-- The public entry `parse(text)` including its argument type check:
every non-string argument fails immediately with
`new FlowMDError('FlowMD source must be a string')` (no line number). -/
def parseValue (opts : Options) : JSValue → Except FlowMDError GraphDocument
  | .str s => parse opts s
  | _ => .error ⟨"FlowMD source must be a string", none⟩

/-! ## GraphModel -/

/-- The node-seeding loop body of `GraphModel.#buildAdjacency`:
`map.set(node.id, new Set())`. -/
def adjSeed (m : List (String × List String)) (n : NodeRecord) : List (String × List String) :=
  mapSet m n.id []

/-- The edge loop body of `GraphModel.#buildAdjacency`: register both
endpoints when absent, then add the target to the source's successor
set. -/
def adjStep (m : List (String × List String)) (e : EdgeRecord) : List (String × List String) :=
  let m := if mapHas m e.source then m else m ++ [(e.source, [])]
  let m := if mapHas m e.target then m else m ++ [(e.target, [])]
  mapUpdate (fun s => setAdd s e.target) m e.source

/-- Models `GraphModel.#buildAdjacency`: seed an entry (empty successor set) for
every declared node in order, then walk the edges, appending entries for
endpoints not yet present and adding each target to its source's
successor set. -/
def buildAdjacency (nodes : List NodeRecord) (edges : List EdgeRecord) :
    List (String × List String) :=
  edges.foldl adjStep (nodes.foldl adjSeed [])

/-- The state threaded through `GraphModel.#detectCycles`. -/
structure DfsState where
  visited : List String := []
  stack : List String := []
  path : List String := []
  seen : List String := []
  cycles : List (List String) := []
  deriving Repr, DecidableEq

/-- The cycle dedup key `cyclePath.join('->')`. -/
def cycleKey (c : List String) : String := String.intercalate "->" c

/-- The cycle warning message ``Cycle detected: n1 -> ... -> n1``. -/
def cycleMsg (c : List String) : String :=
  "Cycle detected: " ++ String.intercalate " -> " c

/-- The recursive `dfs` closure of `GraphModel.#detectCycles`.  `fuel`
bounds the recursion depth; `detectCycles` passes more fuel than any
chain of recursive calls can consume (each nested call is on a node not
yet visited, so the depth is at most the number of distinct ids). -/
def dfs (adj : List (String × List String)) : Nat → String → DfsState → DfsState
  | 0, _, st => st
  | fuel + 1, nodeId, st =>
    let st := { st with
                visited := setAdd st.visited nodeId
                stack := setAdd st.stack nodeId
                path := st.path ++ [nodeId] }
    let succs := (mapGet? adj nodeId).getD []
    let st := succs.foldl
      (fun st succ =>
        if !st.visited.contains succ then dfs adj fuel succ st
        else if st.stack.contains succ then
          match idxOf? succ st.path with
          | some index =>
            let cyclePath := st.path.drop index ++ [succ]
            let key := cycleKey cyclePath
            if st.seen.contains key then st
            else { st with seen := st.seen ++ [key], cycles := st.cycles ++ [cyclePath] }
          | none => st
        else st)
      st
    { st with stack := st.stack.erase nodeId, path := st.path.dropLast }

/-- Models `GraphModel.#detectCycles`: depth-first traversal over the adjacency
keys in iteration order, skipping keys already visited. -/
def detectCycles (adj : List (String × List String)) : List (List String) :=
  let fuel := adj.length + adj.foldl (fun a p => a + p.2.length) 0 + 1
  let st := adj.foldl
    (fun st p => if st.visited.contains p.1 then st else dfs adj fuel p.1 st)
    {}
  st.cycles

/-- The `GraphModel` object: the document's `nodes`/`edges`/`meta`, the
derived adjacency and the detected cycles. -/
structure GraphModel where
  nodes : List NodeRecord
  edges : List EdgeRecord
  meta : Meta
  adjacency : List (String × List String)
  cycles : List (List String)
  deriving Repr, DecidableEq

/-- The cycle-warning record pushed by the `GraphModel` constructor. -/
def cycleWarning (c : List String) : Warning := ⟨cycleMsg c, none, c⟩

/-- The warning-appending loop of the `GraphModel` constructor: one
warning per detected cycle, skipped when a warning with the same message
text is already present (in the parser warnings or appended earlier in
this same loop). -/
def appendCycleWarnings (base : List Warning) (cycles : List (List String)) : List Warning :=
  cycles.foldl
    (fun ws cycle =>
      if ws.any (fun w => w.message == cycleMsg cycle) then ws
      else ws ++ [cycleWarning cycle])
    base

/-- The `GraphModel` constructor: alias the document's `nodes`, `edges`
and `meta`, build adjacency, detect cycles, and append the deduplicated
cycle warnings into the document's `meta.warnings` collection.  (The
source guards the loop with `if (this.cycles.length)` and an
`Array.isArray` check; for a well-formed document and an empty cycle list
the loop is the identity, so the guard is behaviourally redundant.) -/
def GraphModel.ofDoc (doc : GraphDocument) : GraphModel :=
  let adjacency := buildAdjacency doc.nodes doc.edges
  let cycles := detectCycles adjacency
  { nodes := doc.nodes
    edges := doc.edges
    meta := { doc.meta with warnings := appendCycleWarnings doc.meta.warnings cycles }
    adjacency := adjacency
    cycles := cycles }

/-- Models `GraphModel.successors`: `Array.from(this.adjacency.get(nodeId) ?? [])`. -/
def GraphModel.successors (m : GraphModel) (nodeId : String) : List String :=
  (mapGet? m.adjacency nodeId).getD []

/-- Models `GraphModel.findNode`: first node record with the id, else `null`. -/
def GraphModel.findNode (m : GraphModel) (nodeId : String) : Option NodeRecord :=
  m.nodes.find? (fun n => n.id == nodeId)

/-- Models `GraphModel.toJSON`: the verbatim `{nodes, edges, meta}` view. -/
def GraphModel.toJSON (m : GraphModel) : GraphDocument :=
  ⟨m.nodes, m.edges, m.meta⟩

/-! ## HighlightEngine -/

/-- The result sets of `HighlightEngine.downstream` (`visited` node ids
and edge keys, both in insertion order; the `duration` timing field is
not modelled). -/
structure DownstreamResult where
  nodes : List String
  edges : List String
  deriving Repr, DecidableEq

/-- The `while (queue.length)` loop of `HighlightEngine.downstream`: a
dequeued node already visited is skipped; otherwise it is marked visited
and each outgoing edge is recorded, with not-yet-visited successors
enqueued.  `fuel` bounds the number of iterations; `downstream` passes
more fuel than the number of possible enqueues. -/
def downstreamLoop (m : GraphModel) :
    Nat → List String → List String → List String → List String × List String
  | 0, _, visited, edgeIds => (visited, edgeIds)
  | fuel + 1, queue, visited, edgeIds =>
    match queue with
    | [] => (visited, edgeIds)
    | nodeId :: rest =>
      if visited.contains nodeId then downstreamLoop m fuel rest visited edgeIds
      else
        let visited := setAdd visited nodeId
        let step := (m.successors nodeId).foldl
          (fun (acc : List String × List String) succ =>
            let es := setAdd acc.1 (nodeId ++ "->" ++ succ)
            let q := if visited.contains succ then acc.2 else acc.2 ++ [succ]
            (es, q))
          (edgeIds, rest)
        downstreamLoop m fuel step.2 visited step.1

/-- Models `HighlightEngine.downstream`: an empty (falsy) start id returns two
empty sets immediately; otherwise run the breadth-first loop seeded with
the start id. -/
def downstream (m : GraphModel) (startId : String) : DownstreamResult :=
  if startId = "" then ⟨[], []⟩
  else
    let fuel := 2 + m.adjacency.length + m.adjacency.foldl (fun a p => a + p.2.length) 0
    let r := downstreamLoop m fuel [startId] [] []
    ⟨r.1, r.2⟩

/-! ## Auxiliary definitions used by the theorems -/

/-- The ids of a node list, in order. -/
def nodeIds (ns : List NodeRecord) : List String := ns.map (fun n => n.id)

/-- The skip condition of the scan loop: the trimmed line is empty or a
`%%` comment. -/
def blankOrComment (raw : String) : Bool :=
  jsTrim raw = "" || pfx "%%".data (jsTrim raw).data

/-- An empty document (used as a `getD` fallback at concrete inputs). -/
def emptyDoc : GraphDocument :=
  ⟨[], [], ⟨"TB", 300, 1000, [], [], [], false, false⟩⟩

/-- A document whose only edge joins two undeclared endpoints. -/
def doc5 : GraphDocument := ⟨[], [⟨"A->B", "A", "B", "", 2⟩], emptyDoc.meta⟩

/-- The document parsed from a three-node line plus a duplicate node line. -/
def doc6 : GraphDocument :=
  (parse defaultOptions "flowchart TB\nA-->B\nB-->A\nA").toOption.getD emptyDoc

/-- A context holding one already-registered node `A`. -/
def ctx7 : Ctx := { nodes := [⟨"A", "x", "[", 2, none⟩] }

/-- A context in which `A` was first declared in group `G1` and the
active group is now `G2`. -/
def ctx8 : Ctx :=
  { nodes := [⟨"A", "A", "[]", 3, some "G1"⟩]
    groups := [("G1", ["A"]), ("G2", [])]
    currentGroup := some "G2" }

/-- The context after re-declaring `A` in `ctx8`. -/
def ctx8' : Ctx := (parseNode "A" ctx8).getD {}

/-- The document parsed from a cyclic graph with a preceding parser
warning. -/
def doc9 : GraphDocument :=
  (parse defaultOptions "flowchart TB\n???\nA-->B\nB-->A").toOption.getD emptyDoc

/-- The document parsed from a comment line, a direction-free header with
trailing junk, and one edge. -/
def docC1 : GraphDocument :=
  (parse defaultOptions "%%c\ngraph x\nA-->B").toOption.getD emptyDoc

/-! ## Theorems settling the claims -/

/-- C3: on the model built from parsing `"flowchart TB\nA-->B\nA-->C\nB-->D"`,
`downstream("A")` returns exactly the nodes `{A,B,C,D}` and exactly the
edge keys `{"A->B","A->C","B->D"}` (here as the insertion-ordered
contents of the two result sets).  The further conjuncts exercise the
first-dequeue discipline of the breadth-first loop: on the cyclic graph
`A-->B-->C-->A` the traversal terminates with `{A,B,C}` and all three
edges, and on a diamond with `D` enqueued twice (via `B` and via `C`)
`D`'s outgoing edges are recorded exactly once. -/
theorem c3_downstream_bfs :
    ((parse defaultOptions "flowchart TB\nA-->B\nA-->C\nB-->D").toOption.map
        (fun d => downstream (GraphModel.ofDoc d) "A")
      = some ⟨["A", "B", "C", "D"], ["A->B", "A->C", "B->D"]⟩)
    ∧ ((parse defaultOptions "flowchart TB\nA-->B\nB-->C\nC-->A").toOption.map
        (fun d => downstream (GraphModel.ofDoc d) "A")
      = some ⟨["A", "B", "C"], ["A->B", "B->C", "C->A"]⟩)
    ∧ ((parse defaultOptions "flowchart TB\nA-->B\nA-->C\nB-->D\nC-->D\nD-->E").toOption.map
        (fun d => downstream (GraphModel.ofDoc d) "A")
      = some ⟨["A", "B", "C", "D", "E"], ["A->B", "A->C", "B->D", "C->D", "D->E"]⟩) :=
  ⟨rfl, rfl, rfl⟩

/-- C4: the graph model constructed from the document parsed from
`"flowchart TB\nA-->B\nB-->C\nC-->A"` detects exactly the one cycle
`[A,B,C,A]` and its `meta.warnings` holds exactly one warning, the
corresponding `"Cycle detected: A -> B -> C -> A"` record (so a fresh
construction from an equivalent freshly parsed document — the same pure
computation — again yields exactly one such warning). -/
theorem c4_cycle_detected_once :
    ((parse defaultOptions "flowchart TB\nA-->B\nB-->C\nC-->A").toOption.map
        (fun d => (GraphModel.ofDoc d).cycles)
      = some [["A", "B", "C", "A"]])
    ∧ ((parse defaultOptions "flowchart TB\nA-->B\nB-->C\nC-->A").toOption.map
        (fun d => (GraphModel.ofDoc d).meta.warnings)
      = some [⟨"Cycle detected: A -> B -> C -> A", none, ["A", "B", "C", "A"]⟩])
    ∧ ((parse defaultOptions "flowchart TB\nA-->B\nB-->C\nC-->A").toOption.map
        (fun d => ((GraphModel.ofDoc d).meta.warnings.filter
            (fun w => w.message == "Cycle detected: A -> B -> C -> A")).length)
      = some 1) :=
  ⟨rfl, rfl, rfl⟩

/-- C1 counterexample: the claim's own example, the bare keyword `graph`
with the direction token omitted, does **not** parse with orientation
`TB`: `ORIENTATION_PATTERN` requires at least one whitespace character
after the keyword (`\s+`), so the header does not match and parsing fails
with the structural error at line 1. -/
theorem c1_counterexample :
    parse defaultOptions "graph"
      = .error ⟨"FlowMD must start with graph/flowchart declaration", some 1⟩
    ∧ parse defaultOptions "graph\nA-->B"
      = .error ⟨"FlowMD must start with graph/flowchart declaration", some 1⟩
    ∧ matchOrientation "graph" = none :=
  ⟨rfl, rfl, rfl⟩

/-- C7 counterexample: in `"flowchart TB\nA[x]\nA[ ]"` the second
sighting of `A` carries the decorator `[ ]` whose inner text `" "` has
length 1 > 0, so the claim requires the label to be overwritten with the
trimmed inner text `""`; the code instead keeps the old label `"x"`
(`node.label = inner.trim() || node.label`). -/
theorem c7_counterexample :
    ((parse defaultOptions "flowchart TB\nA[x]\nA[ ]").toOption.map
        (fun d => d.nodes.map (fun n => (n.id, n.label)))
      = some [("A", "x")])
    ∧ matchNode "A[ ]" = some ("A", some "[ ]")
    ∧ sliceInner "[ ]" = " "
    ∧ (sliceInner "[ ]").length = 1
    ∧ jsTrim (sliceInner "[ ]") = ""
    ∧ ("x" : String) ≠ "" :=
  ⟨rfl, rfl, rfl, rfl, rfl, by decide⟩

/-- C8 counterexample: in
`"flowchart TB\nsubgraph G1\nA\nend\nsubgraph G2\nA\nend"` the node `A`
is first declared inside `G1`; its re-declaration inside `G2` leaves the
record's `group` field at `G1` but **adds** `A` to `G2`'s member set in
`meta.groups`, so the set of groups containing the id does change after
the first encounter. -/
theorem c8_counterexample :
    (parse defaultOptions "flowchart TB\nsubgraph G1\nA\nend\nsubgraph G2\nA\nend").toOption.map
        (fun d => (d.meta.groups, d.nodes.map (fun n => (n.id, n.group))))
      = some ([("G1", ["A"]), ("G2", ["A"])], [("A", some "G1")]) :=
  rfl

/-- C10: `parse` applied to any non-string argument (null, undefined, a
number, an object) fails with `FlowMDError` message
`"FlowMD source must be a string"` and no line number, before any line of
input is examined. -/
theorem c10_nonstring_rejected (opts : Options) (v : JSValue)
    (h : ∀ s, v ≠ JSValue.str s) :
    parseValue opts v = .error ⟨"FlowMD source must be a string", none⟩ := by
  cases v with
  | str s => exact absurd rfl (h s)
  | num n => rfl
  | null => rfl
  | undef => rfl
  | obj => rfl

/-- C10 witness: the theorem applied at `null`, `undefined`, a number and
an object. -/
theorem c10_nonstring_rejected_witness :
    parseValue defaultOptions .null = .error ⟨"FlowMD source must be a string", none⟩
    ∧ parseValue defaultOptions .undef = .error ⟨"FlowMD source must be a string", none⟩
    ∧ parseValue defaultOptions (.num 3) = .error ⟨"FlowMD source must be a string", none⟩
    ∧ parseValue defaultOptions .obj = .error ⟨"FlowMD source must be a string", none⟩ :=
  ⟨c10_nonstring_rejected defaultOptions .null (fun _ h => JSValue.noConfusion h),
   c10_nonstring_rejected defaultOptions .undef (fun _ h => JSValue.noConfusion h),
   c10_nonstring_rejected defaultOptions (.num 3) (fun _ h => JSValue.noConfusion h),
   c10_nonstring_rejected defaultOptions .obj (fun _ h => JSValue.noConfusion h)⟩

/-- C2: after a full scan with final node count `N` (the node map of the
final context): if `N > maxNodes` the parse fails with the overflow error
whose message names `N` and the cap, and no document is returned; if
`preferredMaxNodes < N ≤ maxNodes` the parse succeeds with
`meta.degrade = true`; if `N ≤ preferredMaxNodes` it succeeds with
`meta.degrade = false`.  The first conjunct records the default caps
(1000 / 300). -/
theorem c2_overflow_policy (opts : Options) (text : String) (ctx : Ctx)
    (h : parseCtx text = .ok ctx)
    (hle : opts.preferredMaxNodes ≤ opts.maxNodes) :
    (defaultOptions.maxNodes = 1000 ∧ defaultOptions.preferredMaxNodes = 300)
    ∧ (ctx.nodes.length > opts.maxNodes →
        parse opts text = .error ⟨overflowMsg ctx.nodes.length opts.maxNodes, none⟩)
    ∧ (opts.preferredMaxNodes < ctx.nodes.length → ctx.nodes.length ≤ opts.maxNodes →
        ∃ doc, parse opts text = .ok doc ∧ doc.meta.degrade = true)
    ∧ (ctx.nodes.length ≤ opts.preferredMaxNodes →
        ∃ doc, parse opts text = .ok doc ∧ doc.meta.degrade = false) := by
  have key : parse opts text =
      (if decide (ctx.nodes.length > opts.maxNodes) = true
       then .error ⟨overflowMsg ctx.nodes.length opts.maxNodes, none⟩
       else .ok ⟨ctx.nodes, ctx.edges,
         ⟨ctx.orientation, opts.preferredMaxNodes, opts.maxNodes, ctx.warnings,
          ctx.logs, ctx.groups, decide (ctx.nodes.length > opts.preferredMaxNodes),
          decide (ctx.nodes.length > opts.maxNodes)⟩⟩) := by
    unfold parse
    rw [h]
  refine ⟨⟨rfl, rfl⟩, ?_, ?_, ?_⟩
  · intro ho
    rw [key, if_pos (decide_eq_true ho)]
  · intro hp hm
    have hnot : ¬ decide (ctx.nodes.length > opts.maxNodes) = true := by
      simp [Nat.not_lt.mpr hm]
    refine ⟨_, by rw [key, if_neg hnot], ?_⟩
    exact decide_eq_true hp
  · intro hp
    have hm : ctx.nodes.length ≤ opts.maxNodes := Nat.le_trans hp hle
    have hnot : ¬ decide (ctx.nodes.length > opts.maxNodes) = true := by
      simp [Nat.not_lt.mpr hm]
    refine ⟨_, by rw [key, if_neg hnot], ?_⟩
    simpa using Nat.not_lt.mpr hp

/-- C2 witness: the three branches at concrete inputs — three nodes with
cap 2 overflows with the message naming both; two nodes with
`preferredMaxNodes = 1` degrade; two nodes under the default caps do not. -/
theorem c2_overflow_policy_witness :
    parse ⟨2, 1⟩ "graph x\nA-->B\nB-->C" = .error ⟨overflowMsg 3 2, none⟩
    ∧ (∃ doc, parse ⟨1000, 1⟩ "graph x\nA-->B" = .ok doc ∧ doc.meta.degrade = true)
    ∧ (∃ doc, parse defaultOptions "graph x\nA-->B" = .ok doc ∧ doc.meta.degrade = false) :=
  ⟨(c2_overflow_policy ⟨2, 1⟩ "graph x\nA-->B\nB-->C" _ rfl (by decide)).2.1 (by decide),
   (c2_overflow_policy ⟨1000, 1⟩ "graph x\nA-->B" _ rfl (by decide)).2.2.1 (by decide) (by decide),
   (c2_overflow_policy defaultOptions "graph x\nA-->B" _ rfl (by decide)).2.2.2 (by decide)⟩

/-! ### Lemmas about the list/map/set models -/

theorem contains_iff {s : List String} {x : String} : s.contains x = true ↔ x ∈ s :=
  List.elem_iff

theorem setAdd_nodup {s : List String} {x : String} (h : s.Nodup) : (setAdd s x).Nodup := by
  unfold setAdd
  split
  · exact h
  · rename_i hc
    have hx : x ∉ s := fun hm => hc (contains_iff.mpr hm)
    rw [List.nodup_append]
    exact ⟨h, List.nodup_singleton x, fun a ha hax => hx ((List.mem_singleton.mp hax) ▸ ha)⟩

theorem mem_mapSet {α : Type} {m : List (String × α)} {k : String} {v : α} {p : String × α}
    (h : p ∈ mapSet m k v) : p ∈ m ∨ p = (k, v) := by
  induction m with
  | nil => simp [mapSet] at h; exact Or.inr h
  | cons q r ih =>
    unfold mapSet at h
    split at h
    · rcases List.mem_cons.mp h with h1 | h1
      · exact Or.inr h1
      · exact Or.inl (List.mem_cons_of_mem _ h1)
    · rcases List.mem_cons.mp h with h1 | h1
      · exact Or.inl (h1 ▸ List.mem_cons_self _ _)
      · rcases ih h1 with h2 | h2
        · exact Or.inl (List.mem_cons_of_mem _ h2)
        · exact Or.inr h2

theorem mem_mapUpdate {α : Type} {f : α → α} {m : List (String × α)} {k : String}
    {p : String × α} (h : p ∈ mapUpdate f m k) :
    p ∈ m ∨ ∃ v, (k, v) ∈ m ∧ p = (k, f v) := by
  induction m with
  | nil => simp [mapUpdate] at h
  | cons q r ih =>
    unfold mapUpdate at h
    split at h
    · rename_i hq
      rcases List.mem_cons.mp h with h1 | h1
      · exact Or.inr ⟨q.2, by simp [← hq, h1]⟩
      · exact Or.inl (List.mem_cons_of_mem _ h1)
    · rcases List.mem_cons.mp h with h1 | h1
      · exact Or.inl (h1 ▸ List.mem_cons_self _ _)
      · rcases ih h1 with h2 | h2
        · exact Or.inl (List.mem_cons_of_mem _ h2)
        · rcases h2 with ⟨v, hv, hp⟩
          exact Or.inr ⟨v, List.mem_cons_of_mem _ hv, hp⟩

theorem mapHas_append {α : Type} (m₁ m₂ : List (String × α)) (k : String) :
    mapHas (m₁ ++ m₂) k = (mapHas m₁ k || mapHas m₂ k) := by
  simp [mapHas, List.any_append]

theorem mapHas_mapUpdate {α : Type} (f : α → α) (m : List (String × α)) (k k' : String) :
    mapHas (mapUpdate f m k') k = mapHas m k := by
  induction m with
  | nil => rfl
  | cons q r ih =>
    unfold mapUpdate
    split
    · simp [mapHas]
    · simp only [mapHas, List.any_cons] at *
      rw [ih]

theorem mapGet?_eq_none {α : Type} {m : List (String × α)} {k : String}
    (h : mapHas m k = false) : mapGet? m k = none := by
  induction m with
  | nil => rfl
  | cons q r ih =>
    simp only [mapHas, List.any_cons, Bool.or_eq_false_iff, beq_eq_false_iff_ne] at h
    unfold mapGet?
    rw [if_neg h.1]
    exact ih (by simp [mapHas, h.2])

theorem mapGet?_mapUpdate_self {α : Type} {f : α → α} {m : List (String × α)} {k : String}
    {v : α} (h : mapGet? m k = some v) :
    mapGet? (mapUpdate f m k) k = some (f v) := by
  induction m with
  | nil => simp [mapGet?] at h
  | cons q r ih =>
    unfold mapGet? at h
    unfold mapUpdate
    split
    · rename_i hq
      unfold mapGet?
      rw [if_pos hq] at h ⊢
      simp at h
      simp [h]
    · rename_i hq
      unfold mapGet?
      rw [if_neg hq] at h ⊢
      exact ih h

theorem mapUpdate_not_has {α : Type} {f : α → α} {m : List (String × α)} {k : String}
    (h : mapHas m k = false) : mapUpdate f m k = m := by
  induction m with
  | nil => rfl
  | cons q r ih =>
    simp only [mapHas, List.any_cons, Bool.or_eq_false_iff, beq_eq_false_iff_ne] at h
    unfold mapUpdate
    rw [if_neg h.1]
    rw [ih (by simp [mapHas, h.2])]

/-! ### C5: adjacency invariants -/

theorem adjStep_has_mono {m : List (String × List String)} {k : String}
    (e : EdgeRecord) (h : mapHas m k = true) : mapHas (adjStep m e) k = true := by
  unfold adjStep
  rw [mapHas_mapUpdate]
  split
  · split
    · exact h
    · rw [mapHas_append, h, Bool.true_or]
  · split
    · rw [mapHas_append, h, Bool.true_or]
    · rw [mapHas_append, mapHas_append, h, Bool.true_or, Bool.true_or]

theorem mapHas_self_append {α : Type} (m : List (String × α)) (k : String) (v : α) :
    mapHas (m ++ [(k, v)]) k = true := by
  rw [mapHas_append]
  simp [mapHas]

theorem adjStep_has_endpoints (m : List (String × List String)) (e : EdgeRecord) :
    mapHas (adjStep m e) e.source = true ∧ mapHas (adjStep m e) e.target = true := by
  unfold adjStep
  rw [mapHas_mapUpdate, mapHas_mapUpdate]
  have hsrc : ∀ mm : List (String × List String), mapHas mm e.source = true →
      mapHas (if mapHas mm e.target then mm else mm ++ [(e.target, [])]) e.source = true := by
    intro mm h
    split
    · exact h
    · rw [mapHas_append, h, Bool.true_or]
  have h1 : mapHas (if mapHas m e.source then m else m ++ [(e.source, [])]) e.source = true := by
    split
    · rename_i hs
      exact hs
    · exact mapHas_self_append m e.source []
  have htgt : ∀ mm : List (String × List String),
      mapHas (if mapHas mm e.target then mm else mm ++ [(e.target, [])]) e.target = true := by
    intro mm
    split
    · rename_i ht
      exact ht
    · exact mapHas_self_append mm e.target []
  exact ⟨hsrc _ h1, htgt _⟩

theorem foldl_adjStep_has_mono {k : String} (l : List EdgeRecord) :
    ∀ m, mapHas m k = true → mapHas (l.foldl adjStep m) k = true := by
  induction l with
  | nil => exact fun m h => h
  | cons e r ih => exact fun m h => ih _ (adjStep_has_mono e h)

theorem foldl_adjStep_endpoints {e : EdgeRecord} (l : List EdgeRecord) :
    ∀ m, e ∈ l →
      mapHas (l.foldl adjStep m) e.source = true ∧ mapHas (l.foldl adjStep m) e.target = true := by
  induction l with
  | nil => intro m h; simp at h
  | cons e' r ih =>
    intro m h
    rcases List.mem_cons.mp h with h1 | h1
    · subst h1
      exact ⟨foldl_adjStep_has_mono r _ (adjStep_has_endpoints m e).1,
             foldl_adjStep_has_mono r _ (adjStep_has_endpoints m e).2⟩
    · exact ih _ h1

theorem vals_nodup_addKey {m : List (String × List String)} {k : String}
    (h : ∀ p ∈ m, p.2.Nodup) :
    ∀ p ∈ (if mapHas m k then m else m ++ [(k, ([] : List String))]), p.2.Nodup := by
  intro p hp
  split at hp
  · exact h p hp
  · rcases List.mem_append.mp hp with h2 | h2
    · exact h p h2
    · simp at h2
      simp [h2]

theorem adjStep_vals_nodup {m : List (String × List String)} (e : EdgeRecord)
    (h : ∀ p ∈ m, p.2.Nodup) : ∀ p ∈ adjStep m e, p.2.Nodup := by
  intro p hp
  unfold adjStep at hp
  have h1 := vals_nodup_addKey (k := e.source) h
  have h2 := vals_nodup_addKey (k := e.target) h1
  rcases mem_mapUpdate hp with hin | ⟨v, hv, hp2⟩
  · exact h2 p hin
  · subst hp2
    exact setAdd_nodup (h2 _ hv)

theorem foldl_adjStep_vals_nodup (l : List EdgeRecord) :
    ∀ m, (∀ p ∈ m, p.2.Nodup) → ∀ p ∈ l.foldl adjStep m, p.2.Nodup := by
  induction l with
  | nil => exact fun m h => h
  | cons e r ih => exact fun m h => ih _ (adjStep_vals_nodup e h)

theorem foldl_adjSeed_vals_nodup (l : List NodeRecord) :
    ∀ m : List (String × List String), (∀ p ∈ m, p.2.Nodup) →
      ∀ p ∈ l.foldl adjSeed m, p.2.Nodup := by
  induction l with
  | nil => exact fun m h => h
  | cons n r ih =>
    intro m h
    refine ih _ ?_
    intro p hp
    rcases mem_mapSet hp with h1 | h1
    · exact h p h1
    · simp [h1]

/-- C5: for every graph model built from a document, every edge's source
and target id is an adjacency key (even endpoints with no node record);
every adjacency value is a duplicate-free successor list; and querying
`successors` for an id that is not an adjacency key yields `[]` rather
than failing. -/
theorem c5_adjacency_invariants (doc : GraphDocument) :
    (∀ e ∈ doc.edges,
        mapHas (GraphModel.ofDoc doc).adjacency e.source = true
        ∧ mapHas (GraphModel.ofDoc doc).adjacency e.target = true)
    ∧ (∀ p ∈ (GraphModel.ofDoc doc).adjacency, p.2.Nodup)
    ∧ (∀ id, mapHas (GraphModel.ofDoc doc).adjacency id = false →
        (GraphModel.ofDoc doc).successors id = []) := by
  have hadj : (GraphModel.ofDoc doc).adjacency = buildAdjacency doc.nodes doc.edges := rfl
  refine ⟨?_, ?_, ?_⟩
  · intro e he
    rw [hadj]
    exact foldl_adjStep_endpoints doc.edges _ he
  · intro p hp
    rw [hadj] at hp
    exact foldl_adjStep_vals_nodup doc.edges _
      (foldl_adjSeed_vals_nodup doc.nodes [] (by simp)) p hp
  · intro id h
    unfold GraphModel.successors
    rw [mapGet?_eq_none h]
    rfl

/-- C5 witness: on a document whose only edge is `A-->B` with neither
endpoint declared as a node, both endpoints are adjacency keys, the entry
`("A", ["B"])` has a duplicate-free value, and an unknown id has no
successors. -/
theorem c5_adjacency_invariants_witness :
    (mapHas (GraphModel.ofDoc doc5).adjacency "A" = true
      ∧ mapHas (GraphModel.ofDoc doc5).adjacency "B" = true)
    ∧ (["B"] : List String).Nodup
    ∧ (GraphModel.ofDoc doc5).successors "Z" = [] :=
  ⟨(c5_adjacency_invariants doc5).1 ⟨"A->B", "A", "B", "", 2⟩ (by decide),
   (c5_adjacency_invariants doc5).2.1 ("A", ["B"]) (by decide),
   (c5_adjacency_invariants doc5).2.2 "Z" (by decide)⟩

/-! ### C6: uniqueness of node ids through the scan -/

theorem nodeIds_nodesUpdate (f : NodeRecord → NodeRecord) (hf : ∀ n, (f n).id = n.id)
    (ns : List NodeRecord) (id : String) :
    nodeIds (nodesUpdate f ns id) = nodeIds ns := by
  induction ns with
  | nil => rfl
  | cons n r ih =>
    unfold nodesUpdate
    split
    · simp [nodeIds, hf]
    · simp only [nodeIds, List.map_cons]
      rw [show (nodesUpdate f r id).map (fun n => n.id) = nodeIds (nodesUpdate f r id) from rfl,
        ih]
      rfl

theorem nodesHas_iff {ns : List NodeRecord} {id : String} :
    nodesHas ns id = true ↔ id ∈ nodeIds ns := by
  simp only [nodesHas, nodeIds, List.any_eq_true, List.mem_map, beq_iff_eq]

theorem ensureNode_nodeIds_nodup {ctx : Ctx} {id : String} {ln : Nat} {sh : Option String}
    (h : (nodeIds ctx.nodes).Nodup) : (nodeIds (ensureNode id ctx ln sh).nodes).Nodup := by
  have hupd : ∀ f : NodeRecord → NodeRecord, (∀ n, (f n).id = n.id) →
      (nodeIds (nodesUpdate f ctx.nodes id)).Nodup := by
    intro f hf
    rw [nodeIds_nodesUpdate f hf]
    exact h
  have happ : ∀ r : NodeRecord, r.id = id → ¬ nodesHas ctx.nodes id = true →
      (nodeIds (ctx.nodes ++ [r])).Nodup := by
    intro r hr hno
    have hid : id ∉ nodeIds ctx.nodes := fun hm => hno (nodesHas_iff.mpr hm)
    unfold nodeIds
    rw [List.map_append, List.nodup_append]
    refine ⟨h, by simp, fun a ha hax => ?_⟩
    simp only [List.map_cons, List.map_nil, List.mem_singleton, hr] at hax
    exact hid (hax ▸ ha)
  unfold ensureNode
  split
  · split
    · split
      · exact hupd _ (fun n => rfl)
      · exact h
    · exact h
  · rename_i hno
    exact happ _ rfl hno

theorem parseSubgraph_nodes (line : String) (ctx : Ctx) :
    (parseSubgraph line ctx).2.nodes = ctx.nodes := by
  unfold parseSubgraph
  split
  · rfl
  · split
    · rfl
    · split <;> rfl

theorem parseEdge_nodup {line : String} {ctx ctx' : Ctx}
    (h : parseEdge line ctx = some ctx') (hn : (nodeIds ctx.nodes).Nodup) :
    (nodeIds ctx'.nodes).Nodup := by
  unfold parseEdge at h
  cases hm : matchEdge line with
  | none => rw [hm] at h; simp at h
  | some m =>
    rw [hm] at h
    simp only [Option.map_some', Option.some.injEq] at h
    subst h
    exact ensureNode_nodeIds_nodup (ensureNode_nodeIds_nodup hn)

theorem parseNode_nodup {line : String} {ctx ctx' : Ctx}
    (h : parseNode line ctx = some ctx') (hn : (nodeIds ctx.nodes).Nodup) :
    (nodeIds ctx'.nodes).Nodup := by
  unfold parseNode at h
  cases hm : matchNode line with
  | none => rw [hm] at h; simp at h
  | some m =>
    rw [hm] at h
    simp only [Option.map_some', Option.some.injEq] at h
    subst h
    cases hcg : (ensureNode m.1 ctx ctx.line m.2).currentGroup with
    | some g => exact ensureNode_nodeIds_nodup hn
    | none => exact ensureNode_nodeIds_nodup hn

theorem processLineCore_nodup {l : String} {ctx ctx' : Ctx}
    (h : (nodeIds ctx.nodes).Nodup) (hok : processLineCore l ctx = .ok ctx') :
    (nodeIds ctx'.nodes).Nodup := by
  unfold processLineCore at hok
  split at hok
  · cases hok
    exact h
  · split at hok
    · unfold parseHeader at hok
      split at hok
      · exact absurd hok (by simp)
      · cases hok
        exact h
    · split at hok
      · cases hok
        simpa [parseSubgraph_nodes] using h
      · split at hok
        · cases hok
          exact h
        · cases hpe : parseEdge l ctx with
          | some c =>
            rw [hpe] at hok
            cases hok
            exact parseEdge_nodup hpe h
          | none =>
            rw [hpe] at hok
            cases hpn : parseNode l ctx with
            | some c =>
              rw [hpn] at hok
              cases hok
              exact parseNode_nodup hpn h
            | none =>
              rw [hpn] at hok
              cases hok
              exact h

theorem processLine_nodup {l : String} {n : Nat} {ctx ctx' : Ctx}
    (h : (nodeIds ctx.nodes).Nodup) (hok : processLine l n ctx = .ok ctx') :
    (nodeIds ctx'.nodes).Nodup :=
  @processLineCore_nodup (jsTrim l) { ctx with line := n } ctx' h hok

theorem scanLines_nodup (ls : List String) :
    ∀ (n : Nat) (ctx ctx' : Ctx), (nodeIds ctx.nodes).Nodup →
      scanLines ls n ctx = .ok ctx' → (nodeIds ctx'.nodes).Nodup := by
  induction ls with
  | nil =>
    intro n ctx ctx' h hok
    cases hok
    exact h
  | cons l rest ih =>
    intro n ctx ctx' h hok
    unfold scanLines at hok
    cases hp : processLine l n ctx with
    | error e => rw [hp] at hok; exact absurd hok (by simp)
    | ok c1 =>
      rw [hp] at hok
      exact ih _ _ _ (processLine_nodup h hp) hok

/-- C6: for every input on which `parse` succeeds, the returned
document's `nodes` sequence contains no two records with the same id. -/
theorem c6_unique_node_ids (opts : Options) (text : String) (doc : GraphDocument)
    (h : parse opts text = .ok doc) : (doc.nodes.map (fun n => n.id)).Nodup := by
  cases hc : parseCtx text with
  | error e =>
    have : parse opts text = .error e := by
      unfold parse
      rw [hc]
    rw [this] at h
    exact absurd h (by simp)
  | ok ctx =>
    have key : parse opts text =
        (if decide (ctx.nodes.length > opts.maxNodes) = true
         then .error ⟨overflowMsg ctx.nodes.length opts.maxNodes, none⟩
         else .ok ⟨ctx.nodes, ctx.edges,
           ⟨ctx.orientation, opts.preferredMaxNodes, opts.maxNodes, ctx.warnings,
            ctx.logs, ctx.groups, decide (ctx.nodes.length > opts.preferredMaxNodes),
            decide (ctx.nodes.length > opts.maxNodes)⟩⟩) := by
      unfold parse
      rw [hc]
    rw [key] at h
    have hn : (nodeIds ctx.nodes).Nodup := by
      have hinit : (nodeIds initCtx.nodes).Nodup := by simp [initCtx, nodeIds]
      exact scanLines_nodup (splitRNL text) 1 initCtx ctx hinit hc
    by_cases ho : decide (ctx.nodes.length > opts.maxNodes) = true
    · rw [if_pos ho] at h
      exact absurd h (by simp)
    · rw [if_neg ho] at h
      injection h with h2
      subst h2
      exact hn

/-- C6 witness: the theorem applied to a parse that sights the id `A`
three times (as two edge endpoints and one node line). -/
theorem c6_unique_node_ids_witness : (doc6.nodes.map (fun n => n.id)).Nodup :=
  c6_unique_node_ids defaultOptions "flowchart TB\nA-->B\nB-->A\nA" doc6 rfl

/-! ### C7 and C8: behaviour of `ensureNode` and `parseNode` on later
sightings of a known id -/

theorem nodesGet?_some_has {ns : List NodeRecord} {id : String} {n : NodeRecord}
    (h : nodesGet? ns id = some n) : nodesHas ns id = true := by
  induction ns with
  | nil => simp [nodesGet?] at h
  | cons r rest ih =>
    unfold nodesGet? at h
    unfold nodesHas
    rw [List.any_cons]
    by_cases hr : r.id = id
    · rw [show (r.id == id) = true from beq_iff_eq.mpr hr, Bool.true_or]
    · rw [if_neg hr] at h
      rw [show rest.any (fun n => n.id == id) = true from ih h, Bool.or_true]

theorem nodesGet?_nodesUpdate {f : NodeRecord → NodeRecord} (hf : ∀ r, (f r).id = r.id)
    {ns : List NodeRecord} {id : String} {n : NodeRecord}
    (h : nodesGet? ns id = some n) :
    nodesGet? (nodesUpdate f ns id) id = some (f n) := by
  induction ns with
  | nil => simp [nodesGet?] at h
  | cons r rest ih =>
    unfold nodesGet? at h
    unfold nodesUpdate
    by_cases hr : r.id = id
    · rw [if_pos hr] at h
      rw [if_pos hr]
      unfold nodesGet?
      rw [if_pos ((hf r).trans hr)]
      injection h with h2
      rw [h2]
    · rw [if_neg hr] at h
      rw [if_neg hr]
      unfold nodesGet?
      rw [if_neg hr]
      exact ih h

/-- The effect of `#ensureNode` on an already-registered id: the record
keeps its id, shape, origin line and group; the label is overwritten with
the trimmed decorator inner text exactly when a decorator is present, its
inner text is non-empty (decorator length > 2), and the trimmed inner
text is non-empty. -/
theorem ensureNode_existing {ctx : Ctx} {id : String} {ln : Nat} {shape? : Option String}
    {n : NodeRecord} (hn : nodesGet? ctx.nodes id = some n) :
    nodesGet? (ensureNode id ctx ln shape?).nodes id =
      some { n with label :=
        match shape? with
        | some sh =>
          if sh.length > 2 ∧ jsTrim (sliceInner sh) ≠ "" then jsTrim (sliceInner sh)
          else n.label
        | none => n.label } := by
  have hhas : nodesHas ctx.nodes id = true := nodesGet?_some_has hn
  unfold ensureNode
  rw [if_pos hhas]
  cases shape? with
  | none => exact hn
  | some sh =>
    dsimp only
    by_cases hlen : sh.length > 2
    · rw [if_pos hlen]
      have hu := nodesGet?_nodesUpdate
        (f := fun r =>
          { r with label := let t := jsTrim (sliceInner sh); if t = "" then r.label else t })
        (fun r => rfl) hn
      refine hu.trans ?_
      by_cases ht : jsTrim (sliceInner sh) = ""
      · simp [ht]
      · simp [ht, hlen]
    · rw [if_neg hlen]
      have hl : (if sh.length > 2 ∧ jsTrim (sliceInner sh) ≠ "" then jsTrim (sliceInner sh)
          else n.label) = n.label := by
        simp [hlen]
      rw [hl]
      exact hn

/-- C7 (amended): for a node id already sighted, a later sighting never
changes the shape (nor the origin line or group); the label is
overwritten if and only if the sighting carries a decorator of length > 2
(non-empty inner text) whose trimmed inner text is also non-empty, and
the new label is that trimmed inner text. -/
theorem c7_label_update_rule (ctx : Ctx) (id : String) (ln : Nat) (shape? : Option String)
    (n : NodeRecord) (hn : nodesGet? ctx.nodes id = some n) :
    nodesGet? (ensureNode id ctx ln shape?).nodes id =
      some { n with label :=
        match shape? with
        | some sh =>
          if sh.length > 2 ∧ jsTrim (sliceInner sh) ≠ "" then jsTrim (sliceInner sh)
          else n.label
        | none => n.label } :=
  ensureNode_existing hn

/-- C7 witness: a re-sighting with decorator `[y]` overwrites the label;
re-sightings with decorator `[ ]` (whitespace inner text) or with no
decorator keep label, shape, line and group unchanged. -/
theorem c7_label_update_rule_witness :
    nodesGet? (ensureNode "A" ctx7 3 (some "[y]")).nodes "A" = some ⟨"A", "y", "[", 2, none⟩
    ∧ nodesGet? (ensureNode "A" ctx7 3 (some "[ ]")).nodes "A" = some ⟨"A", "x", "[", 2, none⟩
    ∧ nodesGet? (ensureNode "A" ctx7 3 none).nodes "A" = some ⟨"A", "x", "[", 2, none⟩ :=
  ⟨c7_label_update_rule ctx7 "A" 3 (some "[y]") ⟨"A", "x", "[", 2, none⟩ rfl,
   c7_label_update_rule ctx7 "A" 3 (some "[ ]") ⟨"A", "x", "[", 2, none⟩ rfl,
   c7_label_update_rule ctx7 "A" 3 none ⟨"A", "x", "[", 2, none⟩ rfl⟩

theorem ensureNode_groups (id : String) (ctx : Ctx) (ln : Nat) (sh : Option String) :
    (ensureNode id ctx ln sh).groups = ctx.groups := by
  unfold ensureNode
  split
  · split
    · split <;> rfl
    · rfl
  · rfl

theorem ensureNode_currentGroup (id : String) (ctx : Ctx) (ln : Nat) (sh : Option String) :
    (ensureNode id ctx ln sh).currentGroup = ctx.currentGroup := by
  unfold ensureNode
  split
  · split
    · split <;> rfl
    · rfl
  · rfl

/-- C8 (amended): when a node line re-declares an already-registered id,
the record's `group` field never changes; the `groups` map is unchanged
when no group scope is active (or the active group is not a groups key),
but when a group scope `g` is active with member set `s`, the id is added
to `g`'s member set — so the set of groups containing the id can grow on
re-declaration. -/
theorem c8_group_membership_rule (ctx : Ctx) (line : String) (id : String)
    (shape? : Option String) (n : NodeRecord) (ctx' : Ctx)
    (hm : matchNode line = some (id, shape?))
    (hn : nodesGet? ctx.nodes id = some n)
    (hok : parseNode line ctx = some ctx') :
    ((nodesGet? ctx'.nodes id).map (fun r => r.group) = some n.group)
    ∧ (ctx.currentGroup = none → ctx'.groups = ctx.groups)
    ∧ (∀ g s, ctx.currentGroup = some g → mapGet? ctx.groups g = some s →
        mapGet? ctx'.groups g = some (setAdd s id))
    ∧ (∀ g, ctx.currentGroup = some g → mapHas ctx.groups g = false →
        ctx'.groups = ctx.groups) := by
  unfold parseNode at hok
  rw [hm] at hok
  simp only [Option.map_some', Option.some.injEq] at hok
  subst hok
  have hcg := ensureNode_currentGroup id ctx ctx.line shape?
  have hgr := ensureNode_groups id ctx ctx.line shape?
  have hnode := @ensureNode_existing ctx id ctx.line shape? n hn
  cases hcc : ctx.currentGroup with
  | none =>
    rw [show (ensureNode id ctx ctx.line shape?).currentGroup = none from hcg.trans hcc]
    refine ⟨?_, fun _ => hgr, fun g s hg => ?_, fun g hg => ?_⟩
    · rw [hnode]
      rfl
    · exact Option.noConfusion hg
    · exact Option.noConfusion hg
  | some g0 =>
    rw [show (ensureNode id ctx ctx.line shape?).currentGroup = some g0 from hcg.trans hcc]
    refine ⟨?_, fun hg => ?_, fun g s hg hs => ?_, fun g hg hno => ?_⟩
    · rw [show ({ ensureNode id ctx ctx.line shape? with
          groups := mapUpdate (fun s => setAdd s id)
            (ensureNode id ctx ctx.line shape?).groups g0 } : Ctx).nodes
        = (ensureNode id ctx ctx.line shape?).nodes from rfl]
      rw [hnode]
      rfl
    · exact Option.noConfusion hg
    · have hgg : g = g0 := by
        injection hg with h2
        exact h2.symm
      subst hgg
      rw [show ({ ensureNode id ctx ctx.line shape? with
          groups := mapUpdate (fun s => setAdd s id)
            (ensureNode id ctx ctx.line shape?).groups g } : Ctx).groups
        = mapUpdate (fun s => setAdd s id) (ensureNode id ctx ctx.line shape?).groups g
        from rfl]
      rw [hgr]
      exact mapGet?_mapUpdate_self hs
    · have hgg : g = g0 := by
        injection hg with h2
        exact h2.symm
      subst hgg
      rw [show ({ ensureNode id ctx ctx.line shape? with
          groups := mapUpdate (fun s => setAdd s id)
            (ensureNode id ctx ctx.line shape?).groups g } : Ctx).groups
        = mapUpdate (fun s => setAdd s id) (ensureNode id ctx ctx.line shape?).groups g
        from rfl]
      rw [hgr]
      exact mapUpdate_not_has hno

/-- C8 witness: re-declaring `A` (first declared in `G1`) while `G2` is
the active group keeps the record's group at `G1` and adds `A` to `G2`'s
member set. -/
theorem c8_group_membership_rule_witness :
    ((nodesGet? ctx8'.nodes "A").map (fun r => r.group) = some (some "G1"))
    ∧ mapGet? ctx8'.groups "G2" = some ["A"] := by
  have h := c8_group_membership_rule ctx8 "A" "A" none ⟨"A", "A", "[]", 3, some "G1"⟩ ctx8'
    rfl rfl rfl
  exact ⟨h.1, h.2.2.1 "G2" [] rfl rfl⟩

/-! ### C1: the header contract -/

theorem jsWS_toLower {c : Char} (h : jsWS c = true) : c.toLower = c := by
  simp only [jsWS, Bool.or_eq_true, decide_eq_true_eq] at h
  rcases h with ((((h | h) | h) | h) | h) | h <;> subst h <;> decide

theorem dropWS_cons_of_ws {c : Char} (l : List Char) (h : jsWS c = true) :
    dropWS (c :: l) = dropWS l := by
  unfold dropWS
  rw [List.dropWhile_cons, if_pos h]

theorem processLine_blank {l : String} (h : blankOrComment l = true) (n : Nat) (ctx : Ctx) :
    processLine l n ctx = .ok { ctx with line := n } := by
  unfold processLine processLineCore
  rw [if_pos (show (decide (jsTrim l = "") || pfx "%%".data (jsTrim l).data) = true from h)]

theorem processLine_header {l : String} {n : Nat} {ctx : Ctx}
    (hl : blankOrComment l = false) (hp : ctx.orientationParsed = false) :
    processLine l n ctx = parseHeader (jsTrim l) { ctx with line := n } := by
  unfold processLine processLineCore
  have hcond : ¬ (decide (jsTrim l = "") || pfx "%%".data (jsTrim l).data) = true := by
    intro hc
    rw [show (decide (jsTrim l = "") || pfx "%%".data (jsTrim l).data) = false from hl] at hc
    exact Bool.noConfusion hc
  rw [if_neg hcond,
    if_pos (show (!({ ctx with line := n } : Ctx).orientationParsed) = true by simp [hp])]

theorem scanLines_cons_ok {l : String} {n : Nat} {ctx c1 : Ctx} (rest : List String)
    (h : processLine l n ctx = .ok c1) :
    scanLines (l :: rest) n ctx = scanLines rest (n + 1) c1 := by
  have he : scanLines (l :: rest) n ctx =
      match processLine l n ctx with
      | .error e => .error e
      | .ok ctx' => scanLines rest (n + 1) ctx' := rfl
  rw [he, h]

theorem scanLines_cons_err {l : String} {n : Nat} {ctx : Ctx} {e : FlowMDError}
    (rest : List String) (h : processLine l n ctx = .error e) :
    scanLines (l :: rest) n ctx = .error e := by
  have he : scanLines (l :: rest) n ctx =
      match processLine l n ctx with
      | .error e => .error e
      | .ok ctx' => scanLines rest (n + 1) ctx' := rfl
  rw [he, h]

theorem scanLines_blank_prefix (bs : List String) :
    ∀ (rest : List String) (n : Nat) (ctx : Ctx), (∀ b ∈ bs, blankOrComment b = true) →
      ∃ m, scanLines (bs ++ rest) n ctx
        = scanLines rest (n + bs.length) { ctx with line := m } := by
  induction bs with
  | nil =>
    intro rest n ctx _
    exact ⟨ctx.line, rfl⟩
  | cons b bs ih =>
    intro rest n ctx h
    have hb := processLine_blank (h b (List.mem_cons_self _ _)) n ctx
    have hone : scanLines ((b :: bs) ++ rest) n ctx
        = scanLines (bs ++ rest) (n + 1) { ctx with line := n } :=
      scanLines_cons_ok (bs ++ rest) hb
    obtain ⟨m, hm⟩ := ih rest (n + 1) { ctx with line := n }
      (fun x hx => h x (List.mem_cons_of_mem _ hx))
    refine ⟨m, ?_⟩
    rw [hone, hm,
      show n + (b :: bs).length = n + 1 + bs.length by
        simp only [List.length_cons]
        omega]

theorem ensureNode_orient (id : String) (ctx : Ctx) (ln : Nat) (sh : Option String) :
    (ensureNode id ctx ln sh).orientation = ctx.orientation
    ∧ (ensureNode id ctx ln sh).orientationParsed = ctx.orientationParsed := by
  unfold ensureNode
  split
  · split
    · split <;> exact ⟨rfl, rfl⟩
    · exact ⟨rfl, rfl⟩
  · exact ⟨rfl, rfl⟩

theorem parseSubgraph_orient (line : String) (ctx : Ctx) :
    (parseSubgraph line ctx).2.orientation = ctx.orientation
    ∧ (parseSubgraph line ctx).2.orientationParsed = ctx.orientationParsed := by
  unfold parseSubgraph
  split
  · exact ⟨rfl, rfl⟩
  · split
    · exact ⟨rfl, rfl⟩
    · split <;> exact ⟨rfl, rfl⟩

theorem parseEdge_orient {line : String} {ctx ctx' : Ctx} (h : parseEdge line ctx = some ctx') :
    ctx'.orientation = ctx.orientation
    ∧ ctx'.orientationParsed = ctx.orientationParsed := by
  unfold parseEdge at h
  cases hm : matchEdge line with
  | none => rw [hm] at h; simp at h
  | some m =>
    rw [hm] at h
    simp only [Option.map_some', Option.some.injEq] at h
    subst h
    exact ⟨((ensureNode_orient _ _ _ _).1).trans (ensureNode_orient _ _ _ _).1,
           ((ensureNode_orient _ _ _ _).2).trans (ensureNode_orient _ _ _ _).2⟩

theorem parseNode_orient {line : String} {ctx ctx' : Ctx} (h : parseNode line ctx = some ctx') :
    ctx'.orientation = ctx.orientation
    ∧ ctx'.orientationParsed = ctx.orientationParsed := by
  unfold parseNode at h
  cases hm : matchNode line with
  | none => rw [hm] at h; simp at h
  | some m =>
    rw [hm] at h
    simp only [Option.map_some', Option.some.injEq] at h
    subst h
    cases hcg : (ensureNode m.1 ctx ctx.line m.2).currentGroup with
    | some g => exact ⟨(ensureNode_orient _ _ _ _).1, (ensureNode_orient _ _ _ _).2⟩
    | none => exact ⟨(ensureNode_orient _ _ _ _).1, (ensureNode_orient _ _ _ _).2⟩

theorem processLineCore_orient {l : String} {ctx ctx' : Ctx}
    (hp : ctx.orientationParsed = true) (hok : processLineCore l ctx = .ok ctx') :
    ctx'.orientation = ctx.orientation ∧ ctx'.orientationParsed = true := by
  unfold processLineCore at hok
  split at hok
  · cases hok
    exact ⟨rfl, hp⟩
  · split at hok
    · rename_i hcond
      rw [hp] at hcond
      exact Bool.noConfusion hcond
    · split at hok
      · cases hok
        exact ⟨(parseSubgraph_orient _ _).1, (parseSubgraph_orient _ _).2.trans hp⟩
      · split at hok
        · cases hok
          exact ⟨rfl, hp⟩
        · cases hpe : parseEdge l ctx with
          | some c =>
            rw [hpe] at hok
            cases hok
            exact ⟨(parseEdge_orient hpe).1, (parseEdge_orient hpe).2.trans hp⟩
          | none =>
            rw [hpe] at hok
            cases hpn : parseNode l ctx with
            | some c =>
              rw [hpn] at hok
              cases hok
              exact ⟨(parseNode_orient hpn).1, (parseNode_orient hpn).2.trans hp⟩
            | none =>
              rw [hpn] at hok
              cases hok
              exact ⟨rfl, hp⟩

theorem scanLines_orient (ls : List String) :
    ∀ (n : Nat) (ctx ctx' : Ctx), ctx.orientationParsed = true →
      scanLines ls n ctx = .ok ctx' →
      ctx'.orientation = ctx.orientation ∧ ctx'.orientationParsed = true := by
  induction ls with
  | nil =>
    intro n ctx ctx' hp hok
    cases hok
    exact ⟨rfl, hp⟩
  | cons l rest ih =>
    intro n ctx ctx' hp hok
    unfold scanLines at hok
    cases hpr : processLine l n ctx with
    | error e => rw [hpr] at hok; exact absurd hok (by simp)
    | ok c1 =>
      rw [hpr] at hok
      have h1 := @processLineCore_orient (jsTrim l) { ctx with line := n } c1 hp hpr
      obtain ⟨h2, h3⟩ := ih _ _ _ h1.2 hok
      exact ⟨h2.trans h1.1, h3⟩

/-- C1 (amended): the first non-blank non-comment line of the input is
matched against `ORIENTATION_PATTERN`; when it does not match, `parse`
fails with the structural error carrying that line's 1-based number; when
it matches with orientation `o` (the direction group, or its default
`TB`), every successful parse of the text carries `meta.orientation = o`.
The third conjunct is the default rule: after the keyword, one whitespace
character and text starting with no direction token, the matched
orientation is `TB` — but, per the counterexample, the bare keyword with
nothing after it does not match at all. -/
theorem c1_header_contract (opts : Options) (text : String) (pre post : List String)
    (l : String)
    (hsplit : splitRNL text = pre ++ l :: post)
    (hpre : ∀ b ∈ pre, blankOrComment b = true)
    (hl : blankOrComment l = false) :
    (matchOrientation (jsTrim l) = none →
        parse opts text = .error ⟨"FlowMD must start with graph/flowchart declaration",
          some (pre.length + 1)⟩)
    ∧ (∀ o doc, matchOrientation (jsTrim l) = some o → parse opts text = .ok doc →
        doc.meta.orientation = o)
    ∧ (∀ (c : Char) (cs : List Char), jsWS c = true →
        dirOf? (dropWS (jsLower (c :: cs))) = none →
        matchOrientation ⟨'g' :: 'r' :: 'a' :: 'p' :: 'h' :: c :: cs⟩ = some "TB") := by
  obtain ⟨m, hscan⟩ := scanLines_blank_prefix pre (l :: post) 1 initCtx hpre
  have hctx : parseCtx text = scanLines (l :: post) (1 + pre.length) { initCtx with line := m } := by
    unfold parseCtx
    rw [hsplit]
    exact hscan
  have hhead : processLine l (1 + pre.length) ({ initCtx with line := m }) =
      parseHeader (jsTrim l) { initCtx with line := 1 + pre.length } :=
    processLine_header hl rfl
  refine ⟨?_, ?_, ?_⟩
  · intro hnone
    have hstep : processLine l (1 + pre.length) ({ initCtx with line := m }) =
        .error ⟨"FlowMD must start with graph/flowchart declaration", some (1 + pre.length)⟩ := by
      rw [hhead]
      unfold parseHeader
      rw [hnone]
    have herr : parseCtx text =
        .error ⟨"FlowMD must start with graph/flowchart declaration", some (1 + pre.length)⟩ := by
      rw [hctx]
      exact scanLines_cons_err post hstep
    unfold parse
    rw [herr, Nat.add_comm 1 pre.length]
  · intro o doc hsome hdoc
    have hstep : processLine l (1 + pre.length) ({ initCtx with line := m }) =
        .ok { { initCtx with line := 1 + pre.length } with
              orientationParsed := true
              orientation := o
              logs := ({ initCtx with line := 1 + pre.length } : Ctx).logs
                ++ [⟨"orientation", o, ({ initCtx with line := 1 + pre.length } : Ctx).line⟩] } := by
      rw [hhead]
      unfold parseHeader
      rw [hsome]
    have hrest : parseCtx text = scanLines post (1 + pre.length + 1)
        { { initCtx with line := 1 + pre.length } with
          orientationParsed := true
          orientation := o
          logs := ({ initCtx with line := 1 + pre.length } : Ctx).logs
            ++ [⟨"orientation", o, ({ initCtx with line := 1 + pre.length } : Ctx).line⟩] } := by
      rw [hctx]
      exact scanLines_cons_ok post hstep
    cases hfin : parseCtx text with
    | error e =>
      have : parse opts text = .error e := by
        unfold parse
        rw [hfin]
      rw [this] at hdoc
      exact absurd hdoc (by simp)
    | ok ctxF =>
      have hsl := hrest.symm.trans hfin
      have hor := scanLines_orient post _ _ _ rfl hsl
      have key : parse opts text =
          (if decide (ctxF.nodes.length > opts.maxNodes) = true
           then .error ⟨overflowMsg ctxF.nodes.length opts.maxNodes, none⟩
           else .ok ⟨ctxF.nodes, ctxF.edges,
             ⟨ctxF.orientation, opts.preferredMaxNodes, opts.maxNodes, ctxF.warnings,
              ctxF.logs, ctxF.groups, decide (ctxF.nodes.length > opts.preferredMaxNodes),
              decide (ctxF.nodes.length > opts.maxNodes)⟩⟩) := by
        unfold parse
        rw [hfin]
      rw [key] at hdoc
      by_cases hov : decide (ctxF.nodes.length > opts.maxNodes) = true
      · rw [if_pos hov] at hdoc
        exact absurd hdoc (by simp)
      · rw [if_neg hov] at hdoc
        injection hdoc with h2
        subst h2
        exact hor.1
  · intro c cs hws hdir
    have hlow : c.toLower = c := jsWS_toLower hws
    have hred : matchOrientation ⟨'g' :: 'r' :: 'a' :: 'p' :: 'h' :: c :: cs⟩ =
        (if jsWS c.toLower then
          some ((dirOf? (dropWS (c.toLower :: jsLower cs))).getD "TB") else none) := rfl
    rw [hred, hlow, if_pos hws]
    rw [show jsLower (c :: cs) = c.toLower :: jsLower cs from rfl, hlow] at hdir
    rw [hdir]
    rfl

/-- C1 witness: a comment line followed by `foo()` (no header) fails with
the structural error at line 2; a comment line followed by `graph x`
parses with orientation `TB`; and the matcher maps `graph x` (keyword,
whitespace, no direction token) to `TB`. -/
theorem c1_header_contract_witness :
    parse defaultOptions "%% x\nfoo()"
      = .error ⟨"FlowMD must start with graph/flowchart declaration", some 2⟩
    ∧ docC1.meta.orientation = "TB"
    ∧ matchOrientation "graph x" = some "TB" :=
  ⟨(c1_header_contract defaultOptions "%% x\nfoo()" ["%% x"] [] "foo()" rfl (by decide)
      (by decide)).1 rfl,
   (c1_header_contract defaultOptions "%%c\ngraph x\nA-->B" ["%%c"] ["A-->B"] "graph x" rfl
      (by decide) (by decide)).2.1 "TB" docC1 rfl rfl,
   (c1_header_contract defaultOptions "%% x\nfoo()" ["%% x"] [] "foo()" rfl (by decide)
      (by decide)).2.2 ' ' ['x'] (by decide) (by decide)⟩

/-! ### C9: the GraphModel constructor's frame -/

theorem appendCycleWarnings_spec (cycles : List (List String)) :
    ∀ base : List Warning,
      ∃ app, appendCycleWarnings base cycles = base ++ app
        ∧ (∀ w ∈ app, ∃ c, c ∈ cycles ∧ w = cycleWarning c)
        ∧ (app.map (fun w => w.message)).Nodup
        ∧ (∀ w ∈ app, ∀ b ∈ base, b.message ≠ w.message)
        ∧ (∀ c ∈ cycles, ∃ w, w ∈ appendCycleWarnings base cycles ∧ w.message = cycleMsg c) := by
  induction cycles with
  | nil =>
    intro base
    exact ⟨[], by simp [appendCycleWarnings], by simp, by simp, by simp, by simp⟩
  | cons c cs ih =>
    intro base
    have hstep : appendCycleWarnings base (c :: cs) =
        appendCycleWarnings
          (if base.any (fun w => w.message == cycleMsg c) then base
           else base ++ [cycleWarning c]) cs := rfl
    by_cases hany : base.any (fun w => w.message == cycleMsg c) = true
    · rw [hstep, if_pos hany]
      obtain ⟨app, heq, h1, h2, h3, h4⟩ := ih base
      refine ⟨app, heq, ?_, h2, h3, ?_⟩
      · intro w hw
        obtain ⟨c', hc', hw'⟩ := h1 w hw
        exact ⟨c', List.mem_cons_of_mem _ hc', hw'⟩
      · intro c' hc'
        rcases List.mem_cons.mp hc' with h | h
        · subst h
          obtain ⟨b, hb, hbm⟩ := List.any_eq_true.mp hany
          refine ⟨b, ?_, beq_iff_eq.mp hbm⟩
          rw [heq]
          exact List.mem_append_left _ hb
        · exact h4 c' h
    · rw [hstep, if_neg hany]
      obtain ⟨app, heq, h1, h2, h3, h4⟩ := ih (base ++ [cycleWarning c])
      refine ⟨cycleWarning c :: app, ?_, ?_, ?_, ?_, ?_⟩
      · rw [heq, List.append_assoc]
        rfl
      · intro w hw
        rcases List.mem_cons.mp hw with h | h
        · exact ⟨c, List.mem_cons_self _ _, h⟩
        · obtain ⟨c', hc', hw'⟩ := h1 w h
          exact ⟨c', List.mem_cons_of_mem _ hc', hw'⟩
      · rw [List.map_cons, List.nodup_cons]
        refine ⟨?_, h2⟩
        intro hmem
        obtain ⟨w, hw, hwm⟩ := List.mem_map.mp hmem
        exact h3 w hw (cycleWarning c)
          (List.mem_append_right _ (List.mem_singleton_self _)) hwm.symm
      · intro w hw b hb
        rcases List.mem_cons.mp hw with h | h
        · subst h
          intro hbm
          exact hany (List.any_eq_true.mpr ⟨b, hb, beq_iff_eq.mpr hbm⟩)
        · exact h3 w h b (List.mem_append_left _ hb)
      · intro c' hc'
        rcases List.mem_cons.mp hc' with h | h
        · subst h
          refine ⟨cycleWarning c', ?_, rfl⟩
          rw [heq]
          exact List.mem_append_left _ (List.mem_append_right _ (List.mem_singleton_self _))
        · exact h4 c' h

/-- C9: constructing a `GraphModel` from a document changes at most
`meta.warnings`: `nodes`, `edges` and every other `meta` field are
unchanged, `toJSON` reproduces the input `nodes`/`edges` content, and the
warnings list is the input list followed by appended cycle warnings — one
per detected cycle, with mutually distinct message texts, none equal to a
message already present (parser warnings included), and with every
detected cycle's message represented in the final list. -/
theorem c9_construction_frame (doc : GraphDocument) :
    (GraphModel.ofDoc doc).nodes = doc.nodes
    ∧ (GraphModel.ofDoc doc).edges = doc.edges
    ∧ (GraphModel.ofDoc doc).meta.orientation = doc.meta.orientation
    ∧ (GraphModel.ofDoc doc).meta.preferredMaxNodes = doc.meta.preferredMaxNodes
    ∧ (GraphModel.ofDoc doc).meta.maxNodes = doc.meta.maxNodes
    ∧ (GraphModel.ofDoc doc).meta.logs = doc.meta.logs
    ∧ (GraphModel.ofDoc doc).meta.groups = doc.meta.groups
    ∧ (GraphModel.ofDoc doc).meta.degrade = doc.meta.degrade
    ∧ (GraphModel.ofDoc doc).meta.overflow = doc.meta.overflow
    ∧ (GraphModel.ofDoc doc).toJSON
        = ⟨doc.nodes, doc.edges, (GraphModel.ofDoc doc).meta⟩
    ∧ (∃ app, (GraphModel.ofDoc doc).meta.warnings = doc.meta.warnings ++ app
        ∧ (∀ w ∈ app, ∃ c, c ∈ (GraphModel.ofDoc doc).cycles ∧ w = cycleWarning c)
        ∧ (app.map (fun w => w.message)).Nodup
        ∧ (∀ w ∈ app, ∀ b ∈ doc.meta.warnings, b.message ≠ w.message)
        ∧ (∀ c ∈ (GraphModel.ofDoc doc).cycles,
            ∃ w, w ∈ (GraphModel.ofDoc doc).meta.warnings ∧ w.message = cycleMsg c)) := by
  obtain ⟨app, heq, h1, h2, h3, h4⟩ :=
    appendCycleWarnings_spec (detectCycles (buildAdjacency doc.nodes doc.edges))
      doc.meta.warnings
  exact ⟨rfl, rfl, rfl, rfl, rfl, rfl, rfl, rfl, rfl, rfl, app, heq, h1, h2, h3, h4⟩

/-- C9 witness: frame conjuncts of the theorem at the document parsed
from a cyclic graph preceded by an unrecognised statement (which leaves a
parser warning in `meta.warnings`). -/
theorem c9_construction_frame_witness :
    (GraphModel.ofDoc doc9).nodes = doc9.nodes
    ∧ (GraphModel.ofDoc doc9).edges = doc9.edges
    ∧ (GraphModel.ofDoc doc9).meta.groups = doc9.meta.groups :=
  ⟨(c9_construction_frame doc9).1, (c9_construction_frame doc9).2.1,
   (c9_construction_frame doc9).2.2.2.2.2.2.1⟩

end FlowViz
